import Mathlib

/-!
Verification of the versioned-snapshot extraction and reconciliation pipeline
(`data_collection/versioning/get_versions_by_git.py` and
`data_collection/versioning/merge_final_data.py`).

Records read from the JSON task files are Python dictionaries; we embed them as
association lists from string keys to a small JSON value type.  Subprocess and
filesystem outcomes (git clone / checkout / describe, directory operations) are
modelled by explicit oracle parameters, and raised-then-caught Python
exceptions become `Option` / `Except` results.
-/

namespace Versioning

/-- Embedded JSON scalar values as produced by `json.loads` for the fields this
pipeline inspects: `null` becomes Python `None`, JSON numbers become Python
ints, JSON strings become Python strings.  (Floats and containers never occur
as `pull_number` / id fields and are not modelled.) -/
inductive JVal where
  | null : JVal
  | num : Int → JVal
  | str : String → JVal
deriving DecidableEq, Repr, Inhabited

/-- A Python dict as parsed from JSON: an association list of string keys to
values, with first-occurrence lookup semantics (parsed dicts have unique
keys). -/
abbrev PyDict := List (String × JVal)

/-- Embeds Python `d.get(k)`: `None` both when the key is missing and when the
stored value is JSON `null` (Python `None`). -/
def pyGetKey (k : String) (d : PyDict) : Option JVal :=
  match List.lookup k d with
  | none => none
  | some JVal.null => none
  | some v => some v

/-- Embeds `inst.get('pull_number')` from `merge_final_data.merge`. -/
def pyGet (d : PyDict) : Option JVal :=
  pyGetKey "pull_number" d

/-- Embeds the Python membership test `'pull_number' in inst`. -/
def hasPn (d : PyDict) : Bool :=
  (List.lookup "pull_number" d).isSome

/-- Embeds `seen = {inst.get('pull_number') for inst in primary if 'pull_number' in inst}`
(`merge_final_data.py` line 52).  An element `none` records a primary entry
whose `pull_number` key holds JSON `null`. -/
def seenInit (primary : List PyDict) : List (Option JVal) :=
  primary.filterMap fun inst =>
    if hasPn inst then some (pyGet inst) else none

/-- Embeds the loop of `merge_final_data.merge` (lines 54-61) over the
secondary list; also counts the warnings logged for entries whose
`pull_number` is missing or null.  Returns the appended records (in order)
and the warning count. -/
def mergeLoopLog (seen : List (Option JVal)) : List PyDict → List PyDict × Nat
  | [] => ([], 0)
  | inst :: rest =>
    match pyGet inst with
    | none =>
      -- logger.warning("Skipping entry with missing pull_number"); continue
      ((mergeLoopLog seen rest).1, (mergeLoopLog seen rest).2 + 1)
    | some pn =>
      if some pn ∈ seen then mergeLoopLog seen rest
      else (inst :: (mergeLoopLog (some pn :: seen) rest).1, (mergeLoopLog (some pn :: seen) rest).2)

/-- Embeds `merge_final_data.merge(primary, secondary)` (lines 47-62):
`out = list(primary)` followed by the absorb loop over `secondary`. -/
def merge (primary secondary : List PyDict) : List PyDict :=
  primary ++ (mergeLoopLog (seenInit primary) secondary).1

/-- Number of "Skipping entry with missing pull_number" warnings logged by one
`merge` call. -/
def mergeWarnings (primary secondary : List PyDict) : Nat :=
  (mergeLoopLog (seenInit primary) secondary).2

/-- The non-null `pull_number` values of a list of records, in order. -/
def pnValues (l : List PyDict) : List JVal :=
  l.filterMap pyGet

/-- Declarative keep-rule for the secondary list, following the (amended)
spec wording: a secondary record is appended exactly when its `pull_number`
is present and non-null, does not occur among the primary records'
`pull_number` values, and no earlier secondary record has the same
`pull_number`.  `pre` is the list of earlier secondary records. -/
def specFilterAux (pPns : List JVal) (pre : List PyDict) : List PyDict → List PyDict
  | [] => []
  | inst :: rest =>
    match pyGet inst with
    | none => specFilterAux pPns (pre ++ [inst]) rest
    | some pn =>
      if pn ∉ pPns ∧ ∀ r2 ∈ pre, pyGet r2 ≠ some pn then
        inst :: specFilterAux pPns (pre ++ [inst]) rest
      else specFilterAux pPns (pre ++ [inst]) rest

/-- Declarative description of the merge output: the primary records verbatim,
followed by the secondary records selected by the spec keep-rule. -/
def mergeSpec (primary secondary : List PyDict) : List PyDict :=
  primary ++ specFilterAux (pnValues primary) [] secondary

/-- Characters stripped by Python `str.strip()` with no argument (the ASCII
whitespace actually occurring in git output; other Unicode whitespace is not
modelled). -/
def isPySpace (c : Char) : Bool :=
  c = ' ' ∨ c = '\t' ∨ c = '\n' ∨ c = '\r' ∨ c = '\x0b' ∨ c = '\x0c'

/-- Embeds Python `s.strip()`. -/
def pyStrip (s : String) : String :=
  String.mk (((s.data.dropWhile isPySpace).reverse.dropWhile isPySpace).reverse)

/-- Numeric value of a list of decimal digit characters. -/
def digitsVal (l : List Char) : Nat :=
  l.foldl (fun a c => a * 10 + (c.toNat - '0'.toNat)) 0

/-- Embeds Python `int(x)` on the values a `pull_number` field can hold:
surrounding whitespace, an optional sign and ASCII decimal digits.  (Python
additionally accepts digit-separating underscores and non-ASCII decimal
digits; those never occur in these datasets and are not modelled.) -/
def pyParseInt (s : String) : Option Int :=
  match (pyStrip s).data with
  | '+' :: rest =>
    if rest.isEmpty || !rest.all Char.isDigit then none else some (digitsVal rest)
  | '-' :: rest =>
    if rest.isEmpty || !rest.all Char.isDigit then none else some (-(digitsVal rest : Int))
  | rest =>
    if rest.isEmpty || !rest.all Char.isDigit then none else some (digitsVal rest)

/-- Embeds the key computation `int(x.get('pull_number', 0))` of the first
sort in `merge_final_data.main` (line 122): `none` when `int()` raises
`ValueError`/`TypeError` for that record. -/
def intKey (d : PyDict) : Option Int :=
  match List.lookup "pull_number" d with
  | none => some 0
  | some (JVal.num n) => some n
  | some (JVal.str s) => pyParseInt s
  | some JVal.null => none

/-- The integer sort key, defaulting to 0; only used on records where
`intKey` is `some`. -/
def intKeyD (d : PyDict) : Int :=
  (intKey d).getD 0

/-- Embeds the key computation `x.get('pull_number', "")` of the fallback sort
(line 124): `none` marks a key of non-string type, whose comparison against a
string key raises an uncaught `TypeError`. -/
def strKey (d : PyDict) : Option String :=
  match List.lookup "pull_number" d with
  | none => some ""
  | some (JVal.str s) => some s
  | some (JVal.num _) => none
  | some JVal.null => none

/-- The string sort key, defaulting to the empty string; only used on records
where `strKey` is `some`. -/
def strKeyD (d : PyDict) : String :=
  (strKey d).getD ""

/-- Descending comparison on integer keys; with a stable sort this reproduces
`merged.sort(key=..., reverse=True)`. -/
def intDescRel (a b : PyDict) : Prop :=
  intKeyD b ≤ intKeyD a

/-- Descending comparison on string keys (Python compares strings by code
point, as Lean does). -/
def strDescRel (a b : PyDict) : Prop :=
  strKeyD b ≤ strKeyD a

instance : DecidableRel intDescRel := fun a b => by
  unfold intDescRel; infer_instance

instance : DecidableRel strDescRel := fun a b => by
  unfold strDescRel; infer_instance

/-- Embeds the sort pass of `merge_final_data.main` (lines 121-125).  Python's
`list.sort` is stable, so both branches are modelled by a stable insertion
sort.  The first branch computes every key up front; any `int()` failure
raises before reordering and is caught, after which the fallback sorts by the
raw values.  In the fallback, comparing keys of different Python types (or
`None`) raises an uncaught `TypeError` whenever the list has at least two
elements; that crash is modelled as `Except.error`. -/
def sortPass (merged : List PyDict) : Except Unit (List PyDict) :=
  if merged.all fun r => (intKey r).isSome then
    Except.ok (merged.insertionSort intDescRel)
  else if merged.length ≤ 1 then
    Except.ok merged
  else if merged.all fun r => (strKey r).isSome then
    Except.ok (merged.insertionSort strDescRel)
  else
    Except.error ()

/-- The reconciliation run on already-read inputs: `merge` followed by the
sort pass (the rest of `merge_final_data.main` is file I/O). -/
def reconcile (primary secondary : List PyDict) : Except Unit (List PyDict) :=
  sortPass (merge primary secondary)

/-- Embeds the pattern step of `get_versions_by_git.get_version_by_git`: an
attempted match of `(\d+\.\d+)(?:\.\d+)?` at the start of the given character
list.  The first digit run is maximal (shortening it cannot help, since every
shortened position still faces a digit rather than the required dot), the dot
must follow immediately, and the second digit run is again maximal; the
optional `.patch` continuation is outside capture group 1 and never blocks the
match, so it plays no role.  Returns the group-1 characters. -/
def matchMM (l : List Char) : Option (List Char) :=
  let d1 := l.takeWhile Char.isDigit
  let r1 := l.dropWhile Char.isDigit
  if d1.isEmpty then none
  else
    match r1 with
    | [] => none
    | c :: r2 =>
      if c = '.' then
        let d2 := r2.takeWhile Char.isDigit
        if d2.isEmpty then none else some (d1 ++ '.' :: d2)
      else none

/-- Embeds `re.search`: try the pattern at each start position from the left
and return the first success. -/
def findMM : List Char → Option (List Char)
  | [] => none
  | c :: cs => (matchMM (c :: cs)).orElse fun _ => findMM cs

/-- Version extraction from a descriptor string: group 1 of the first match of
`(\d+\.\d+)(?:\.\d+)?` (from `get_version_by_git`, lines 36-39). -/
def extractVersion (s : String) : Option String :=
  (findMM s.data).map String.mk

/-- Decides whether a string matches `^\d+\.\d+$`: a nonempty digit run, one
dot, and a nonempty digit run to the end. -/
def isMajorMinor (s : String) : Bool :=
  let d1 := s.data.takeWhile Char.isDigit
  let r1 := s.data.dropWhile Char.isDigit
  !d1.isEmpty &&
    match r1 with
    | [] => false
    | c :: d2 => c == '.' && !d2.isEmpty && d2.all Char.isDigit

/-- Embeds `get_versions_by_git.get_version_by_git` (lines 30-40) with the
external world as parameters: `dirExists` is `os.path.isdir(cloned_dir)` and
`describeOut` the stdout of a successful `git describe --tags` (or `none` when
that command fails and `run_command` re-raises).  `Except.error` collects the
raised exceptions (`NotADirectoryError`, `CalledProcessError`, the
`RuntimeError` for an unrecognized version). -/
def getVersionByGit (dirExists : Bool) (describeOut : Option String) : Except String String :=
  if !dirExists then Except.error "NotADirectoryError"
  else
    match describeOut with
    | none => Except.error "CalledProcessError"
    | some out =>
      let version := pyStrip out
      match extractVersion version with
      | some v => Except.ok v
      | none => Except.error ("Unrecognized version: " ++ version)

/-- Embeds Python `repo.replace("/", "__")`: the pattern is a single
character, so occurrences cannot overlap and replacement is
character-by-character. -/
def repoSanitize (repo : String) : String :=
  String.mk (repo.data.flatMap fun c => if c = '/' then ['_', '_'] else [c])

/-- The deterministic cache location for one repository:
`os.path.join(cache_dir, repo.replace("/", "__"))`
(`get_versions_by_git.prepare_repo_cache`, line 58). -/
def clonePath (cacheDir repo : String) : String :=
  cacheDir ++ "/" ++ repoSanitize repo

/-- Embeds the loop of `get_versions_by_git.prepare_repo_cache` (lines 54-65)
over the tasks' `repo` fields.  `cloneOk repo` is the outcome of
`git clone` for that repository (network success or failure).  The state is
the association list `repo_cache` plus the log of clone attempts actually
issued (each `run_command(["git", "clone", ...])` call appends its repo). -/
def prepareLoop (cloneOk : String → Bool) (cacheDir : String) :
    List String → List (String × String) → List String → List (String × String) × List String
  | [], cache, log => (cache, log)
  | repo :: rest, cache, log =>
    if (List.lookup repo cache).isSome then
      -- `if repo in repo_cache: continue`
      prepareLoop cloneOk cacheDir rest cache log
    else if cloneOk repo then
      prepareLoop cloneOk cacheDir rest (cache ++ [(repo, clonePath cacheDir repo)]) (log ++ [repo])
    else
      -- clone raised; the exception is caught and the repo is not cached
      prepareLoop cloneOk cacheDir rest cache (log ++ [repo])

/-- Embeds `prepare_repo_cache(tasks, cache_dir)` applied to the tasks' `repo`
fields (every task passed here has a `repo` key, checked by `main`).  Returns
the populated cache and the list of clone attempts performed. -/
def prepareRepoCache (cloneOk : String → Bool) (cacheDir : String) (repos : List String) :
    List (String × String) × List String :=
  prepareLoop cloneOk cacheDir repos [] []

/-- Outcomes of the external operations one `process_repo_task` attempt
performs, abstracting the subprocess and filesystem calls: whether the task's
repository is present in `repo_cache` with an existing path, whether
`shutil.copytree` and `git checkout` succeed, and the stdout of
`git describe --tags` when it succeeds (`none` when it fails). -/
structure TaskEnv where
  testbed : String
  cacheHit : Bool
  copyOk : Bool
  checkoutOk : Bool
  describe : Option String

/-- Embeds `os.makedirs(d, exist_ok=True)` on the abstract filesystem (the
list of existing directories). -/
def mkdirs (d : String) (fs : List String) : List String :=
  if d ∈ fs then fs else d :: fs

/-- Embeds `shutil.rmtree(d, ignore_errors=True)` on the abstract
filesystem. -/
def rmtree (d : String) (fs : List String) : List String :=
  fs.filter fun x => x ≠ d

/-- Embeds `result = task.copy(); result["version"] = version`: Python dict
assignment replaces the value in place when the key exists and appends the
pair otherwise. -/
def setField (k : String) (v : JVal) : PyDict → PyDict
  | [] => [(k, v)]
  | (k2, v2) :: rest =>
    if k2 = k then (k2, v) :: rest else (k2, v2) :: setField k v rest

/-- Embeds `get_versions_by_git.process_repo_task` (lines 69-90).  The three
field reads happen before the workspace directory is created; a missing
`instance_id`, `repo` or `base_commit` key (or a non-string `instance_id`,
which makes `os.path.join` raise) escapes the function before the
`try` block, leaving the filesystem untouched — modelled as `Except.error`.
Otherwise the workspace is created, the try-block body runs (any caught
exception yields `None`, i.e. `none`), and the `finally` clause removes the
workspace.  Returns the function result and the final filesystem. -/
def processRepoTask (env : TaskEnv) (task : PyDict) (fs : List String) :
    Except Unit (Option PyDict) × List String :=
  match List.lookup "instance_id" task, List.lookup "repo" task,
      List.lookup "base_commit" task with
  | some (JVal.str iid), some _, some _ =>
    let repoDir := env.testbed ++ "/" ++ iid
    let fs1 := mkdirs repoDir fs
    let res : Option PyDict :=
      if !env.cacheHit then none
      else if !env.copyOk then none
      else if !env.checkoutOk then none
      else
        match getVersionByGit true env.describe with
        | Except.error _ => none
        | Except.ok v => some (setField "version" (JVal.str v) task)
    (Except.ok res, rmtree repoDir fs1)
  | _, _, _ => (Except.error (), fs)

/-- Embeds the required-field check of `get_versions_by_git.main` (line 166):
`{"repo", "base_commit", "instance_id"}.issubset(t)`. -/
def hasRequired (t : PyDict) : Bool :=
  (List.lookup "repo" t).isSome && (List.lookup "base_commit" t).isSome &&
    (List.lookup "instance_id" t).isSome

/-- Embeds the configuration phase of `get_versions_by_git.main` (lines
149-171) up to the call of `prepare_repo_cache`.  `parsed` is the result of
`get_instances` (`none` when it raised: unreadable file or malformed JSON);
`processedIds` is the set of `instance_id`s computed from a discovered
`*_versions_by_github.*` file (`none` when no such file was found or reading
it failed).  `Except.error c` means `main` returned before any cloning with
process exit status `c`; `Except.ok tasks` means the run proceeds to
`prepare_repo_cache` with these tasks. -/
def mainPhase (parsed : Option (List PyDict)) (processedIds : Option (List (Option JVal))) :
    Except Nat (List PyDict) :=
  match parsed with
  | none =>
    -- print("❌ Error reading instance file: ..."); return  → exit status 0
    Except.error 0
  | some tasks0 =>
    let tasks :=
      match processedIds with
      | none => tasks0
      | some seen => tasks0.filter fun t => decide (pyGetKey "instance_id" t ∉ seen)
    if tasks.all hasRequired then Except.ok tasks
    else
      -- print(f"Invalid task format: ..."); return  → exit status 0
      Except.error 0

/-! ## Lemmas about the merge step -/

lemma pyGet_some_hasPn {d : PyDict} {v : JVal} (h : pyGet d = some v) : hasPn d := by
  unfold pyGet pyGetKey at h
  unfold hasPn
  cases hl : List.lookup "pull_number" d with
  | none => rw [hl] at h; cases h
  | some w => simp

lemma mem_seenInit {p : List PyDict} {v : JVal} :
    some v ∈ seenInit p ↔ v ∈ pnValues p := by
  unfold seenInit pnValues
  simp only [List.mem_filterMap]
  constructor
  · rintro ⟨inst, hin, heq⟩
    by_cases hp : hasPn inst
    · simp only [hp, if_true, Option.some.injEq] at heq
      exact ⟨inst, hin, heq⟩
    · simp [hp] at heq
  · rintro ⟨inst, hin, heq⟩
    exact ⟨inst, hin, by simp [pyGet_some_hasPn heq, heq]⟩

lemma exists_mem_append_one {α : Type _} {l : List α} {a : α} {P : α → Prop} :
    (∃ x ∈ l ++ [a], P x) ↔ (∃ x ∈ l, P x) ∨ P a := by
  constructor
  · rintro ⟨x, hx, hP⟩
    rcases List.mem_append.1 hx with h | h
    · exact Or.inl ⟨x, h, hP⟩
    · rcases List.mem_singleton.1 h with rfl
      exact Or.inr hP
  · rintro (⟨x, hx, hP⟩ | hP)
    · exact ⟨x, List.mem_append.2 (Or.inl hx), hP⟩
    · exact ⟨a, List.mem_append.2 (Or.inr (List.mem_singleton.2 rfl)), hP⟩

lemma mergeLoopLog_fst_eq_specFilterAux :
    ∀ (s : List PyDict) (seen : List (Option JVal)) (pPns : List JVal) (pre : List PyDict),
      (∀ v : JVal, some v ∈ seen ↔ (v ∈ pPns ∨ ∃ r2 ∈ pre, pyGet r2 = some v)) →
      (mergeLoopLog seen s).1 = specFilterAux pPns pre s := by
  intro s
  induction s with
  | nil => intro seen pPns pre _; rfl
  | cons inst rest ih =>
    intro seen pPns pre hinv
    cases hg : pyGet inst with
    | none =>
      have hpre : ∀ v : JVal,
          some v ∈ seen ↔ (v ∈ pPns ∨ ∃ r2 ∈ pre ++ [inst], pyGet r2 = some v) := by
        intro v
        rw [hinv v, exists_mem_append_one, hg]
        simp
      simp only [mergeLoopLog, specFilterAux, hg]
      exact ih seen pPns (pre ++ [inst]) hpre
    | some pn =>
      by_cases hm : some pn ∈ seen
      · have hcond : ¬ (pn ∉ pPns ∧ ∀ r2 ∈ pre, pyGet r2 ≠ some pn) := by
          rcases (hinv pn).1 hm with h | ⟨r2, h2, h3⟩
          · rintro ⟨hnp, _⟩; exact hnp h
          · rintro ⟨_, hall⟩; exact hall r2 h2 h3
        have hpre : ∀ v : JVal,
            some v ∈ seen ↔ (v ∈ pPns ∨ ∃ r2 ∈ pre ++ [inst], pyGet r2 = some v) := by
          intro v
          rw [hinv v, exists_mem_append_one, hg]
          constructor
          · rintro (h | h)
            · exact Or.inl h
            · exact Or.inr (Or.inl h)
          · rintro (h | h | h)
            · exact Or.inl h
            · exact Or.inr h
            · injection h with h4
              subst h4
              exact (hinv pn).1 hm
        simp only [mergeLoopLog, specFilterAux, hg, if_pos hm, if_neg hcond]
        exact ih seen pPns (pre ++ [inst]) hpre
      · have hcond : pn ∉ pPns ∧ ∀ r2 ∈ pre, pyGet r2 ≠ some pn := by
          constructor
          · intro h; exact hm ((hinv pn).2 (Or.inl h))
          · intro r2 h2 h3; exact hm ((hinv pn).2 (Or.inr ⟨r2, h2, h3⟩))
        have hpre : ∀ v : JVal,
            some v ∈ some pn :: seen ↔ (v ∈ pPns ∨ ∃ r2 ∈ pre ++ [inst], pyGet r2 = some v) := by
          intro v
          rw [List.mem_cons, hinv v, exists_mem_append_one, hg]
          constructor
          · rintro (h | h | h)
            · exact Or.inr (Or.inr h.symm)
            · exact Or.inl h
            · exact Or.inr (Or.inl h)
          · rintro (h | h | h)
            · exact Or.inr (Or.inl h)
            · exact Or.inr (Or.inr h)
            · exact Or.inl h.symm
        simp only [mergeLoopLog, specFilterAux, hg, if_neg hm, if_pos hcond]
        rw [ih (some pn :: seen) pPns (pre ++ [inst]) hpre]

lemma mergeLoopLog_snd :
    ∀ (s : List PyDict) (seen : List (Option JVal)),
      (mergeLoopLog seen s).2 = s.countP fun r => (pyGet r).isNone := by
  intro s
  induction s with
  | nil => intro seen; rfl
  | cons inst rest ih =>
    intro seen
    cases hg : pyGet inst with
    | none =>
      simp only [mergeLoopLog, hg, List.countP_cons, Option.isNone_none, if_pos rfl]
      rw [ih seen]
      simp [hg]
    | some pn =>
      by_cases hm : some pn ∈ seen
      · simp only [mergeLoopLog, hg, if_pos hm, List.countP_cons]
        rw [ih seen]
        simp [hg]
      · simp only [mergeLoopLog, hg, if_neg hm, List.countP_cons]
        rw [ih (some pn :: seen)]
        simp [hg]

/-- Claim C1, amended.  The merge keeps every primary record verbatim (in
order) and appends exactly those secondary records that have a present,
non-null `pull_number` which neither occurs among the primary records'
`pull_number` values nor equals the `pull_number` of any *earlier secondary
record* (the as-written claim omits this last condition); a secondary record
with a missing or null `pull_number` contributes one warning; records are
selected, never modified. -/
theorem merge_selection_rule (primary secondary : List PyDict) :
    merge primary secondary = mergeSpec primary secondary ∧
    mergeWarnings primary secondary = secondary.countP fun r => (pyGet r).isNone := by
  constructor
  · unfold merge mergeSpec
    congr 1
    apply mergeLoopLog_fst_eq_specFilterAux secondary (seenInit primary) (pnValues primary) []
    intro v
    rw [mem_seenInit]
    simp
  · exact mergeLoopLog_snd secondary (seenInit primary)

/-- Claim C1, counterexample to the claim as stated: the second secondary
record has a non-null `pull_number` (7) that does not occur among the primary
(empty) records' `pull_number` values, yet it is not appended, because an
earlier secondary record already used that `pull_number`. -/
theorem merge_c1_counterexample :
    pyGet [("pull_number", JVal.num 7), ("k", JVal.num 1)] = some (JVal.num 7) ∧
    JVal.num 7 ∉ pnValues ([] : List PyDict) ∧
    [("pull_number", JVal.num 7), ("k", JVal.num 1)] ∉
      merge [] [[("pull_number", JVal.num 7), ("k", JVal.num 0)],
        [("pull_number", JVal.num 7), ("k", JVal.num 1)]] := by
  decide

lemma mergeLoopLog_drop_dup :
    ∀ (l1 : List PyDict) (seen : List (Option JVal)) (r2 : PyDict) (l2 : List PyDict) (v : JVal),
      pyGet r2 = some v →
      (some v ∈ seen ∨ ∃ r ∈ l1, pyGet r = some v) →
      mergeLoopLog seen (l1 ++ r2 :: l2) = mergeLoopLog seen (l1 ++ l2) := by
  intro l1
  induction l1 with
  | nil =>
    intro seen r2 l2 v hg hv
    rcases hv with hv | ⟨r, hr, _⟩
    · simp only [List.nil_append, mergeLoopLog, hg, if_pos hv]
    · cases hr
  | cons x xs ih =>
    intro seen r2 l2 v hg hv
    cases hgx : pyGet x with
    | none =>
      have hrec : some v ∈ seen ∨ ∃ r ∈ xs, pyGet r = some v := by
        rcases hv with hv | ⟨r, hr, hr2⟩
        · exact Or.inl hv
        · rcases List.mem_cons.1 hr with rfl | hr
          · rw [hgx] at hr2; cases hr2
          · exact Or.inr ⟨r, hr, hr2⟩
      simp only [List.cons_append, mergeLoopLog, hgx, List.append_eq]
      rw [ih seen r2 l2 v hg hrec]
    | some pn =>
      by_cases hm : some pn ∈ seen
      · have hrec : some v ∈ seen ∨ ∃ r ∈ xs, pyGet r = some v := by
          rcases hv with hv | ⟨r, hr, hr2⟩
          · exact Or.inl hv
          · rcases List.mem_cons.1 hr with rfl | hr
            · rw [hgx] at hr2
              injection hr2 with h4
              subst h4
              exact Or.inl hm
            · exact Or.inr ⟨r, hr, hr2⟩
        simp only [List.cons_append, mergeLoopLog, hgx, if_pos hm, List.append_eq]
        rw [ih seen r2 l2 v hg hrec]
      · have hrec : some v ∈ some pn :: seen ∨ ∃ r ∈ xs, pyGet r = some v := by
          rcases hv with hv | ⟨r, hr, hr2⟩
          · exact Or.inl (List.mem_cons.2 (Or.inr hv))
          · rcases List.mem_cons.1 hr with rfl | hr
            · rw [hgx] at hr2
              injection hr2 with h4
              subst h4
              exact Or.inl (List.mem_cons.2 (Or.inl rfl))
            · exact Or.inr ⟨r, hr, hr2⟩
        simp only [List.cons_append, mergeLoopLog, hgx, if_neg hm, List.append_eq]
        rw [ih (some pn :: seen) r2 l2 v hg hrec]

lemma mergeLoopLog_keeps_first :
    ∀ (l1 : List PyDict) (seen : List (Option JVal)) (r : PyDict) (l2 : List PyDict) (v : JVal),
      pyGet r = some v → some v ∉ seen → (∀ x ∈ l1, pyGet x ≠ some v) →
      r ∈ (mergeLoopLog seen (l1 ++ r :: l2)).1 := by
  intro l1
  induction l1 with
  | nil =>
    intro seen r l2 v hg hs _
    simp only [List.nil_append, mergeLoopLog, hg, if_neg hs]
    exact List.mem_cons.2 (Or.inl rfl)
  | cons x xs ih =>
    intro seen r l2 v hg hs hall
    have hxs : ∀ y ∈ xs, pyGet y ≠ some v := fun y hy => hall y (List.mem_cons.2 (Or.inr hy))
    cases hgx : pyGet x with
    | none =>
      simp only [List.cons_append, mergeLoopLog, hgx, List.append_eq]
      exact ih seen r l2 v hg hs hxs
    | some pn =>
      by_cases hm : some pn ∈ seen
      · simp only [List.cons_append, mergeLoopLog, hgx, if_pos hm, List.append_eq]
        exact ih seen r l2 v hg hs hxs
      · simp only [List.cons_append, mergeLoopLog, hgx, if_neg hm, List.append_eq]
        have hvpn : v ≠ pn := by
          intro h
          exact hall x (List.mem_cons.2 (Or.inl rfl)) (by rw [hgx, h])
        have hs' : some v ∉ some pn :: seen := by
          intro h
          rcases List.mem_cons.1 h with h | h
          · exact hvpn (by injection h)
          · exact hs h
        exact List.mem_cons.2 (Or.inr (ih (some pn :: seen) r l2 v hg hs' hxs))

/-- Claim C10: merge also deduplicates inside the secondary list.  A later
secondary record sharing the `pull_number` of an earlier one changes neither
the output nor the warning count (it is dropped silently), and when that
`pull_number` occurs neither in the primary list nor earlier in the secondary
list, the first such record is appended. -/
theorem merge_dedups_secondary (p l1 s2 l3 : List PyDict) (r r2 : PyDict) (v : JVal)
    (hr : pyGet r = some v) (hr2 : pyGet r2 = some v) :
    merge p (l1 ++ r :: s2 ++ r2 :: l3) = merge p (l1 ++ r :: s2 ++ l3) ∧
    mergeWarnings p (l1 ++ r :: s2 ++ r2 :: l3) = mergeWarnings p (l1 ++ r :: s2 ++ l3) ∧
    ((v ∉ pnValues p ∧ ∀ x ∈ l1, pyGet x ≠ some v) →
      r ∈ merge p (l1 ++ r :: s2 ++ r2 :: l3)) := by
  have hx : ∃ x ∈ l1 ++ r :: s2, pyGet x = some v :=
    ⟨r, List.mem_append.2 (Or.inr (List.mem_cons.2 (Or.inl rfl))), hr⟩
  have hdrop := mergeLoopLog_drop_dup (l1 ++ r :: s2) (seenInit p) r2 l3 v hr2 (Or.inr hx)
  have hassoc : (l1 ++ r :: s2) ++ r2 :: l3 = l1 ++ r :: s2 ++ r2 :: l3 := by
    simp [List.append_assoc]
  have hassoc2 : (l1 ++ r :: s2) ++ l3 = l1 ++ r :: s2 ++ l3 := by
    simp [List.append_assoc]
  rw [hassoc, hassoc2] at hdrop
  refine ⟨?_, ?_, ?_⟩
  · unfold merge
    rw [hdrop]
  · unfold mergeWarnings
    rw [hdrop]
  · rintro ⟨hvp, hl1⟩
    have hseen : some v ∉ seenInit p := by
      rw [mem_seenInit]; exact hvp
    have hmem := mergeLoopLog_keeps_first l1 (seenInit p) r (s2 ++ r2 :: l3) v hr hseen hl1
    unfold merge
    exact List.mem_append.2 (Or.inr (by simpa using hmem))

/-- Claim C10, witness at a concrete input. -/
theorem merge_dedups_secondary_witness :
    merge [] [[("pull_number", JVal.num 7), ("k", JVal.num 0)],
        [("pull_number", JVal.num 7), ("k", JVal.num 1)]] =
      merge [] [[("pull_number", JVal.num 7), ("k", JVal.num 0)]] ∧
    [("pull_number", JVal.num 7), ("k", JVal.num 0)] ∈
      merge [] [[("pull_number", JVal.num 7), ("k", JVal.num 0)],
        [("pull_number", JVal.num 7), ("k", JVal.num 1)]] := by
  have h := merge_dedups_secondary [] [] []
    [] [("pull_number", JVal.num 7), ("k", JVal.num 0)]
    [("pull_number", JVal.num 7), ("k", JVal.num 1)] (JVal.num 7) (by decide) (by decide)
  exact ⟨h.1, h.2.2 (by decide)⟩

lemma mergeLoopLog_pns_nodup_fresh :
    ∀ (s : List PyDict) (seen : List (Option JVal)),
      (pnValues (mergeLoopLog seen s).1).Nodup ∧
        ∀ v ∈ pnValues (mergeLoopLog seen s).1, some v ∉ seen := by
  intro s
  induction s with
  | nil => intro seen; exact ⟨List.nodup_nil, by intro v hv; cases hv⟩
  | cons inst rest ih =>
    intro seen
    cases hg : pyGet inst with
    | none =>
      simp only [mergeLoopLog, hg]
      exact ih seen
    | some pn =>
      by_cases hm : some pn ∈ seen
      · simp only [mergeLoopLog, hg, if_pos hm]
        exact ih seen
      · simp only [mergeLoopLog, hg, if_neg hm]
        rcases ih (some pn :: seen) with ⟨hnd, hfresh⟩
        have hpns : pnValues (inst :: (mergeLoopLog (some pn :: seen) rest).1) =
            pn :: pnValues (mergeLoopLog (some pn :: seen) rest).1 := by
          unfold pnValues
          rw [List.filterMap_cons_some hg]
        rw [hpns]
        constructor
        · refine List.nodup_cons.2 ⟨?_, hnd⟩
          intro hmem
          exact hfresh pn hmem (List.mem_cons.2 (Or.inl rfl))
        · intro v hv
          rcases List.mem_cons.1 hv with rfl | hv
          · exact hm
          · intro hvs
            exact hfresh v hv (List.mem_cons.2 (Or.inr hvs))

lemma mergeLoopLog_pns_union :
    ∀ (s : List PyDict) (seen : List (Option JVal)) (v : JVal),
      (v ∈ pnValues (mergeLoopLog seen s).1 ∨ some v ∈ seen) ↔
        (v ∈ pnValues s ∨ some v ∈ seen) := by
  intro s
  induction s with
  | nil => intro seen v; rfl
  | cons inst rest ih =>
    intro seen v
    cases hg : pyGet inst with
    | none =>
      have hpns : pnValues (inst :: rest) = pnValues rest := by
        unfold pnValues
        rw [List.filterMap_cons_none hg]
      simp only [mergeLoopLog, hg, hpns]
      exact ih seen v
    | some pn =>
      have hpns : pnValues (inst :: rest) = pn :: pnValues rest := by
        unfold pnValues
        rw [List.filterMap_cons_some hg]
      by_cases hm : some pn ∈ seen
      · simp only [mergeLoopLog, hg, if_pos hm, hpns]
        have hih := ih seen v
        have hvm : v = pn → some v ∈ seen := fun h => by rw [h]; exact hm
        rw [List.mem_cons]
        tauto
      · simp only [mergeLoopLog, hg, if_neg hm, hpns]
        have hpns2 : pnValues (inst :: (mergeLoopLog (some pn :: seen) rest).1) =
            pn :: pnValues (mergeLoopLog (some pn :: seen) rest).1 := by
          unfold pnValues
          rw [List.filterMap_cons_some hg]
        rw [hpns2, List.mem_cons, List.mem_cons]
        have hih := ih (some pn :: seen) v
        rw [List.mem_cons, Option.some.injEq] at hih
        constructor
        · rintro ((h | h) | h)
          · exact Or.inl (Or.inl h)
          · rcases hih.1 (Or.inl h) with h2 | h2
            · exact Or.inl (Or.inr h2)
            · rcases h2 with h2 | h2
              · exact Or.inl (Or.inl h2)
              · exact Or.inr h2
          · exact Or.inr h
        · rintro ((h | h) | h)
          · exact Or.inl (Or.inl h)
          · rcases hih.2 (Or.inl h) with h2 | h2
            · exact Or.inl (Or.inr h2)
            · rcases h2 with h2 | h2
              · exact Or.inl (Or.inl h2)
              · exact Or.inr h2
          · exact Or.inr h

/-- Claim C3, amended.  When the primary list itself has pairwise distinct
non-null `pull_number` values, the merge output also has pairwise distinct
non-null `pull_number` values (the claim as stated fails when primary already
contains duplicates, which `merge` copies verbatim); unconditionally, the set
of non-null `pull_number` values of the output is the union of those of
primary and secondary (secondary records dropped for a missing or null
`pull_number` contribute no value). -/
theorem merge_pn_nodup_union (p s : List PyDict) :
    ((pnValues p).Nodup → (pnValues (merge p s)).Nodup) ∧
    ∀ v, v ∈ pnValues (merge p s) ↔ (v ∈ pnValues p ∨ v ∈ pnValues s) := by
  have hsplit : pnValues (merge p s) =
      pnValues p ++ pnValues (mergeLoopLog (seenInit p) s).1 := by
    unfold merge pnValues
    rw [List.filterMap_append]
  constructor
  · intro hp
    rw [hsplit]
    rcases mergeLoopLog_pns_nodup_fresh s (seenInit p) with ⟨hnd, hfresh⟩
    refine List.nodup_append.2 ⟨hp, hnd, ?_⟩
    intro v hv1 hv2
    exact hfresh v hv2 (mem_seenInit.2 hv1)
  · intro v
    rw [hsplit, List.mem_append]
    have hu := mergeLoopLog_pns_union s (seenInit p) v
    rw [mem_seenInit] at hu
    constructor
    · rintro (h | h)
      · exact Or.inl h
      · rcases hu.1 (Or.inl h) with h2 | h2
        · exact Or.inr h2
        · exact Or.inl h2
    · rintro (h | h)
      · exact Or.inl h
      · rcases hu.2 (Or.inl h) with h2 | h2
        · exact Or.inr h2
        · exact Or.inl h2

/-- Claim C3, witness at a concrete input. -/
theorem merge_pn_nodup_union_witness :
    (pnValues (merge [[("pull_number", JVal.num 5)]] [[("pull_number", JVal.num 3)]])).Nodup :=
  (merge_pn_nodup_union [[("pull_number", JVal.num 5)]] [[("pull_number", JVal.num 3)]]).1
    (by decide)

/-- Claim C3, counterexample to the claim as stated: a primary list carrying
the same `pull_number` twice yields a merge output with two records of equal
`pull_number`. -/
theorem merge_c3_counterexample :
    pnValues (merge [[("pull_number", JVal.num 1), ("k", JVal.num 0)],
        [("pull_number", JVal.num 1), ("k", JVal.num 1)]] []) = [JVal.num 1, JVal.num 1] ∧
    ¬ (pnValues (merge [[("pull_number", JVal.num 1), ("k", JVal.num 0)],
        [("pull_number", JVal.num 1), ("k", JVal.num 1)]] [])).Nodup := by
  decide

lemma mergeLoopLog_all_kept :
    ∀ (s : List PyDict) (seen : List (Option JVal)),
      (∀ r ∈ s, (pyGet r).isSome) → (pnValues s).Nodup →
      (∀ v ∈ pnValues s, some v ∉ seen) →
      (mergeLoopLog seen s).1 = s := by
  intro s
  induction s with
  | nil => intro seen _ _ _; rfl
  | cons inst rest ih =>
    intro seen h1 h2 h3
    rcases Option.isSome_iff_exists.1 (h1 inst (List.mem_cons.2 (Or.inl rfl))) with ⟨pn, hg⟩
    have hpns : pnValues (inst :: rest) = pn :: pnValues rest := by
      unfold pnValues
      rw [List.filterMap_cons_some hg]
    rw [hpns] at h2 h3
    have hm : some pn ∉ seen := h3 pn (List.mem_cons.2 (Or.inl rfl))
    simp only [mergeLoopLog, hg, if_neg hm]
    rw [ih (some pn :: seen) (fun r hr => h1 r (List.mem_cons.2 (Or.inr hr)))
      (List.nodup_cons.1 h2).2]
    intro v hv hmem
    rcases List.mem_cons.1 hmem with h | h
    · injection h with h4
      subst h4
      exact (List.nodup_cons.1 h2).1 hv
    · exact h3 v (List.mem_cons.2 (Or.inr hv)) h

/-- Claim C9, amended.  On inputs whose records all carry a present non-null
`pull_number`, with values pairwise distinct within each list and disjoint
across the two lists, `merge A B = A ++ B` and `merge B A = B ++ A`: the two
orders of merging contain exactly the same records (they are permutations of
each other) but differ as sequences, so `merge` is commutative only up to
reordering, not as stated. -/
theorem merge_comm_up_to_perm (A B : List PyDict)
    (hA1 : ∀ r ∈ A, (pyGet r).isSome) (hB1 : ∀ r ∈ B, (pyGet r).isSome)
    (hA2 : (pnValues A).Nodup) (hB2 : (pnValues B).Nodup)
    (hdisj : ∀ v, v ∈ pnValues A → v ∉ pnValues B) :
    merge A B = A ++ B ∧ merge B A = B ++ A ∧ (merge A B).Perm (merge B A) := by
  have hAB : merge A B = A ++ B := by
    unfold merge
    congr 1
    apply mergeLoopLog_all_kept B (seenInit A) hB1 hB2
    intro v hv hmem
    exact hdisj v (mem_seenInit.1 hmem) hv
  have hBA : merge B A = B ++ A := by
    unfold merge
    congr 1
    apply mergeLoopLog_all_kept A (seenInit B) hA1 hA2
    intro v hv hmem
    exact hdisj v hv (mem_seenInit.1 hmem)
  refine ⟨hAB, hBA, ?_⟩
  rw [hAB, hBA]
  exact List.perm_append_comm

/-- Claim C9, witness at a concrete input. -/
theorem merge_comm_up_to_perm_witness :
    merge [[("pull_number", JVal.num 1)]] [[("pull_number", JVal.num 2)]] =
      [[("pull_number", JVal.num 1)]] ++ [[("pull_number", JVal.num 2)]] ∧
    merge [[("pull_number", JVal.num 2)]] [[("pull_number", JVal.num 1)]] =
      [[("pull_number", JVal.num 2)]] ++ [[("pull_number", JVal.num 1)]] ∧
    (merge [[("pull_number", JVal.num 1)]] [[("pull_number", JVal.num 2)]]).Perm
      (merge [[("pull_number", JVal.num 2)]] [[("pull_number", JVal.num 1)]]) :=
  merge_comm_up_to_perm [[("pull_number", JVal.num 1)]] [[("pull_number", JVal.num 2)]]
    (by decide) (by decide) (by decide) (by decide) (by decide)

/-- Claim C9, counterexample to the claim as stated: two disjoint singleton
inputs whose records both carry a `pull_number`, on which the two merge
orders produce different lists. -/
theorem merge_c9_counterexample :
    (∀ r ∈ [[("pull_number", JVal.num 1)]], (pyGet r).isSome) ∧
    (∀ r ∈ [[("pull_number", JVal.num 2)]], (pyGet r).isSome) ∧
    (∀ v, v ∈ pnValues [[("pull_number", JVal.num 1)]] →
      v ∉ pnValues [[("pull_number", JVal.num 2)]]) ∧
    merge [[("pull_number", JVal.num 1)]] [[("pull_number", JVal.num 2)]] ≠
      merge [[("pull_number", JVal.num 2)]] [[("pull_number", JVal.num 1)]] := by
  refine ⟨by decide, by decide, ?_, by decide⟩
  intro v hv
  simp only [pnValues] at hv ⊢
  intro hv2
  rcases List.mem_filterMap.1 hv with ⟨d, hd, hgd⟩
  rcases List.mem_filterMap.1 hv2 with ⟨d2, hd2, hgd2⟩
  rcases List.mem_singleton.1 hd with rfl
  rcases List.mem_singleton.1 hd2 with rfl
  rw [show pyGet [("pull_number", JVal.num 1)] = some (JVal.num 1) from rfl] at hgd
  rw [show pyGet [("pull_number", JVal.num 2)] = some (JVal.num 2) from rfl] at hgd2
  injection hgd with h1
  injection hgd2 with h2
  rw [← h1] at h2
  cases h2

/-! ## Lemmas about version extraction -/

lemma takeWhile_append_not (p : Char → Bool) :
    ∀ (d1 : List Char) (x : Char) (t : List Char), (∀ c ∈ d1, p c = true) → p x = false →
      (d1 ++ x :: t).takeWhile p = d1 ∧ (d1 ++ x :: t).dropWhile p = x :: t := by
  intro d1
  induction d1 with
  | nil =>
    intro x t _ hx
    simp [List.takeWhile, List.dropWhile, hx]
  | cons c cs ih =>
    intro x t hall hx
    have hc : p c = true := hall c (List.mem_cons.2 (Or.inl rfl))
    have hcs : ∀ c2 ∈ cs, p c2 = true := fun c2 h2 => hall c2 (List.mem_cons.2 (Or.inr h2))
    rcases ih x t hcs hx with ⟨h1, h2⟩
    constructor
    · simp [List.takeWhile, hc, h1]
    · simp [List.dropWhile, hc, h2]

lemma matchMM_isMajorMinor {l m : List Char} (h : matchMM l = some m) :
    isMajorMinor (String.mk m) = true := by
  unfold matchMM at h
  by_cases h1 : (l.takeWhile Char.isDigit).isEmpty
  · simp [h1] at h
  · simp only [h1, Bool.false_eq_true, if_false] at h
    cases hr : l.dropWhile Char.isDigit with
    | nil => rw [hr] at h; simp at h
    | cons c r2 =>
      rw [hr] at h
      by_cases hc : c = '.'
      · subst hc
        simp only [if_pos rfl] at h
        by_cases h2 : (r2.takeWhile Char.isDigit).isEmpty
        · simp [h2] at h
        · simp only [h2, Bool.false_eq_true, if_false, if_true, Option.some.injEq] at h
          subst h
          have hd1 : ∀ c2 ∈ l.takeWhile Char.isDigit, Char.isDigit c2 = true :=
            fun c2 h2 => List.mem_takeWhile_imp h2
          have hdot : Char.isDigit '.' = false := by decide
          rcases takeWhile_append_not Char.isDigit (l.takeWhile Char.isDigit) '.'
              (r2.takeWhile Char.isDigit) hd1 hdot with ⟨ht, hd⟩
          unfold isMajorMinor
          simp only [ht, hd, h1, h2, Bool.false_eq_true, Bool.not_false, Bool.true_and]
          have hall : (r2.takeWhile Char.isDigit).all Char.isDigit = true :=
            List.all_eq_true.2 fun c2 h3 => List.mem_takeWhile_imp h3
          simp [hall, h2]
      · simp [hc] at h

lemma findMM_first :
    ∀ (l m : List Char), findMM l = some m →
      ∃ i, matchMM (l.drop i) = some m ∧ ∀ j < i, matchMM (l.drop j) = none := by
  intro l
  induction l with
  | nil => intro m h; cases h
  | cons c cs ih =>
    intro m h
    unfold findMM at h
    cases hm : matchMM (c :: cs) with
    | some m2 =>
      rw [hm] at h
      simp only [Option.orElse] at h
      have hm2 : m2 = m := by
        injection h
      subst hm2
      exact ⟨0, by simpa using hm, fun j hj => absurd hj (Nat.not_lt_zero j)⟩
    | none =>
      rw [hm] at h
      simp only [Option.orElse] at h
      rcases ih m h with ⟨i, hi1, hi2⟩
      refine ⟨i + 1, by simpa using hi1, ?_⟩
      intro j hj
      cases j with
      | zero => simpa using hm
      | succ j2 =>
        have := hi2 j2 (Nat.lt_of_succ_lt_succ hj)
        simpa using this

lemma findMM_none :
    ∀ (l : List Char), findMM l = none → ∀ i, matchMM (l.drop i) = none := by
  intro l
  induction l with
  | nil =>
    intro _ i
    simp [List.drop_nil]
    rfl
  | cons c cs ih =>
    intro h i
    unfold findMM at h
    cases hm : matchMM (c :: cs) with
    | some m2 => rw [hm] at h; cases h
    | none =>
      rw [hm] at h
      have h2 : findMM cs = none := by
        cases hfm : findMM cs with
        | none => rfl
        | some m3 => rw [hfm] at h; cases h
      cases i with
      | zero => simpa using hm
      | succ i2 => simpa using ih h2 i2

/-- Claim C2: every successfully extracted version string matches
`^\d+\.\d+$`; extraction returns group 1 of the leftmost position at which
the pattern `(\d+\.\d+)(?:\.\d+)?` matches; when no position of the stripped
descriptor matches, `get_version_by_git` raises (returns an error, never an
estimated version); and the descriptor `v2.3.1-0-gabc` yields version
`2.3`. -/
theorem version_extraction_contract :
    (∀ (dirExists : Bool) (out : Option String) (v : String),
        getVersionByGit dirExists out = Except.ok v → isMajorMinor v = true) ∧
    (∀ (s v : String), extractVersion s = some v →
        ∃ i, matchMM (s.data.drop i) = some v.data ∧
          ∀ j < i, matchMM (s.data.drop j) = none) ∧
    (∀ s : String, extractVersion s = none → ∀ i, matchMM (s.data.drop i) = none) ∧
    (∀ (dirExists : Bool) (out v : String), extractVersion (pyStrip out) = none →
        getVersionByGit dirExists (some out) ≠ Except.ok v) ∧
    getVersionByGit true (some "v2.3.1-0-gabc") = Except.ok "2.3" := by
  have hext : ∀ (s v : String), extractVersion s = some v → isMajorMinor v = true := by
    intro s v h
    unfold extractVersion at h
    cases hf : findMM s.data with
    | none => rw [hf] at h; cases h
    | some m =>
      rw [hf] at h
      have hv : v = String.mk m := by
        cases h
        rfl
      subst hv
      rcases findMM_first s.data m hf with ⟨i, hi, _⟩
      exact matchMM_isMajorMinor hi
  refine ⟨?_, ?_, ?_, ?_, ?_⟩
  · intro dirExists out v h
    cases dirExists with
    | false => simp [getVersionByGit] at h
    | true =>
      cases out with
      | none => simp [getVersionByGit] at h
      | some o =>
        cases he : extractVersion (pyStrip o) with
        | none => simp [getVersionByGit, he] at h
        | some v2 =>
          simp only [getVersionByGit, he, Bool.not_true, Bool.false_eq_true, if_false,
            Except.ok.injEq] at h
          subst h
          exact hext (pyStrip o) v2 he
  · intro s v h
    unfold extractVersion at h
    cases hf : findMM s.data with
    | none => rw [hf] at h; cases h
    | some m =>
      rw [hf] at h
      have hv : v = String.mk m := by
        cases h
        rfl
      subst hv
      exact findMM_first s.data m hf
  · intro s h
    unfold extractVersion at h
    cases hf : findMM s.data with
    | some m => rw [hf] at h; cases h
    | none => exact findMM_none s.data hf
  · intro dirExists out v h
    cases dirExists with
    | false =>
      simp only [getVersionByGit, Bool.not_false, if_true]
      exact fun h2 => Except.noConfusion h2
    | true =>
      simp only [getVersionByGit, h, Bool.not_true, Bool.false_eq_true, if_false]
      exact fun h2 => Except.noConfusion h2
  · rfl

/-- Claim C2, witness at a concrete input. -/
theorem version_extraction_contract_witness : isMajorMinor "2.3" = true :=
  version_extraction_contract.1 true (some "v2.3.1-0-gabc") "2.3"
    version_extraction_contract.2.2.2.2

/-! ## Lemmas about the sort pass -/

instance : IsTotal PyDict intDescRel :=
  ⟨fun a b => le_total (intKeyD b) (intKeyD a)⟩

instance : IsTrans PyDict intDescRel :=
  ⟨fun _ _ _ h1 h2 => le_trans h2 h1⟩

instance : IsTotal PyDict strDescRel :=
  ⟨fun a b => le_total (strKeyD b) (strKeyD a)⟩

instance : IsTrans PyDict strDescRel :=
  ⟨fun _ _ _ h1 h2 => le_trans h2 h1⟩

/-- Claim C4, amended.  When every record of the merged list has a
`pull_number` accepted by `int()`, the reconciliation run succeeds and
returns a permutation of the merged list ordered descending by the numeric
key — non-strictly in general, and strictly whenever the numeric key values
are pairwise distinct (the claim as stated fails when two records share a
numeric key).  When some record's value is rejected by `int()` and every
`pull_number` value is a string (or absent, defaulting to `""`), the list is
instead ordered descending lexicographically; the branch is chosen once for
the entire sort by the try/except around the first `sort` call. -/
theorem reconcile_sorted_desc (p s : List PyDict) :
    ((∀ r ∈ merge p s, (intKey r).isSome) →
      ∃ l, reconcile p s = Except.ok l ∧ l.Perm (merge p s) ∧ l.Sorted intDescRel ∧
        (((merge p s).map intKeyD).Nodup →
          l.Sorted fun a b => intKeyD b < intKeyD a)) ∧
    (((∃ r ∈ merge p s, intKey r = none) ∧ ∀ r ∈ merge p s, (strKey r).isSome) →
      ∃ l, reconcile p s = Except.ok l ∧ l.Perm (merge p s) ∧ l.Sorted strDescRel) := by
  constructor
  · intro h
    have hall : ((merge p s).all fun r => (intKey r).isSome) = true := List.all_eq_true.2 h
    refine ⟨(merge p s).insertionSort intDescRel, ?_,
      List.perm_insertionSort intDescRel (merge p s),
      List.sorted_insertionSort intDescRel (merge p s), ?_⟩
    · unfold reconcile sortPass
      rw [if_pos hall]
    · intro hnd
      have hperm := List.perm_insertionSort intDescRel (merge p s)
      have hndl : (((merge p s).insertionSort intDescRel).map intKeyD).Nodup :=
        (hperm.map intKeyD).nodup_iff.2 hnd
      have hpw1 : List.Pairwise intDescRel ((merge p s).insertionSort intDescRel) :=
        List.sorted_insertionSort intDescRel (merge p s)
      have hpw2 : List.Pairwise (fun a b => intKeyD a ≠ intKeyD b)
          ((merge p s).insertionSort intDescRel) := List.pairwise_map.1 hndl
      exact (hpw1.and hpw2).imp fun hab => lt_of_le_of_ne hab.1 (Ne.symm hab.2)
  · rintro ⟨⟨r0, hr0, hr0n⟩, hstr⟩
    have hnall : ¬ (((merge p s).all fun r => (intKey r).isSome) = true) := by
      intro hall
      have h2 := List.all_eq_true.1 hall r0 hr0
      rw [hr0n] at h2
      cases h2
    by_cases hlen : (merge p s).length ≤ 1
    · have hsorted : List.Sorted strDescRel (merge p s) := by
        cases hml : merge p s with
        | nil => exact List.sorted_nil
        | cons a t =>
          cases t with
          | nil => exact List.sorted_singleton a
          | cons b t2 =>
            rw [hml] at hlen
            simp at hlen
      refine ⟨merge p s, ?_, List.Perm.refl _, hsorted⟩
      unfold reconcile sortPass
      rw [if_neg hnall, if_pos hlen]
    · have hallstr : ((merge p s).all fun r => (strKey r).isSome) = true :=
        List.all_eq_true.2 hstr
      refine ⟨(merge p s).insertionSort strDescRel, ?_,
        List.perm_insertionSort strDescRel (merge p s),
        List.sorted_insertionSort strDescRel (merge p s)⟩
      unfold reconcile sortPass
      rw [if_neg hnall, if_neg hlen, if_pos hallstr]

/-- Claim C4, witness at a concrete input. -/
theorem reconcile_sorted_desc_witness :
    ∃ l, reconcile [[("pull_number", JVal.num 1)]] [[("pull_number", JVal.num 2)]] =
        Except.ok l ∧ l.Sorted intDescRel := by
  rcases (reconcile_sorted_desc [[("pull_number", JVal.num 1)]]
      [[("pull_number", JVal.num 2)]]).1 (by decide) with ⟨l, h1, _, h3, _⟩
  exact ⟨l, h1, h3⟩

/-- Claim C4, counterexample to the claim as stated: two records with the
same integer `pull_number` all parse as integers, but the reconciliation
output is not *strictly* descending. -/
theorem reconcile_c4_counterexample :
    (∀ r ∈ merge [[("pull_number", JVal.num 1), ("k", JVal.num 0)],
        [("pull_number", JVal.num 1), ("k", JVal.num 1)]] [], (intKey r).isSome) ∧
    reconcile [[("pull_number", JVal.num 1), ("k", JVal.num 0)],
        [("pull_number", JVal.num 1), ("k", JVal.num 1)]] [] =
      Except.ok [[("pull_number", JVal.num 1), ("k", JVal.num 0)],
        [("pull_number", JVal.num 1), ("k", JVal.num 1)]] ∧
    ¬ List.Sorted (fun a b => intKeyD b < intKeyD a)
      [[("pull_number", JVal.num 1), ("k", JVal.num 0)],
        [("pull_number", JVal.num 1), ("k", JVal.num 1)]] := by
  refine ⟨by decide, ?_, by decide⟩
  rfl

/-! ## Lemmas about the repository cache -/

lemma lookup_append (k : String) (l1 l2 : List (String × String)) :
    List.lookup k (l1 ++ l2) = ((List.lookup k l1).orElse fun _ => List.lookup k l2) := by
  induction l1 with
  | nil => simp [Option.orElse]
  | cons p t ih =>
    rcases p with ⟨a, b⟩
    by_cases hak : k = a
    · subst hak
      simp [List.lookup, Option.orElse]
    · have hb : (k == a) = false := beq_false_of_ne hak
      simp [List.lookup, hb, ih]

lemma prepareLoop_cached (cloneOk : String → Bool) (cacheDir : String) :
    ∀ (repos : List String) (cache : List (String × String)) (log : List String)
      (repo loc : String),
      List.lookup repo cache = some loc →
      List.lookup repo (prepareLoop cloneOk cacheDir repos cache log).1 = some loc ∧
      (prepareLoop cloneOk cacheDir repos cache log).2.count repo = log.count repo := by
  intro repos
  induction repos with
  | nil => intro cache log repo loc h; exact ⟨h, rfl⟩
  | cons r rest ih =>
    intro cache log repo loc h
    by_cases hc : (List.lookup r cache).isSome
    · simp only [prepareLoop, if_pos hc]
      exact ih cache log repo loc h
    · have hne : r ≠ repo := by
        intro he
        subst he
        rw [h] at hc
        exact hc rfl
      have hcount : (log ++ [r]).count repo = log.count repo := by
        rw [List.count_append]
        simp [List.count_singleton', hne]
      simp only [prepareLoop, if_neg hc]
      by_cases hok : cloneOk r = true
      · rw [if_pos hok]
        have hlk : List.lookup repo (cache ++ [(r, clonePath cacheDir r)]) = some loc := by
          rw [lookup_append, h]
          rfl
        rcases ih (cache ++ [(r, clonePath cacheDir r)]) (log ++ [r]) repo loc hlk with ⟨h1, h2⟩
        exact ⟨h1, by rw [h2, hcount]⟩
      · rw [if_neg hok]
        rcases ih cache (log ++ [r]) repo loc h with ⟨h1, h2⟩
        exact ⟨h1, by rw [h2, hcount]⟩

lemma prepareLoop_once (cloneOk : String → Bool) (cacheDir : String) :
    ∀ (repos : List String) (cache : List (String × String)) (log : List String)
      (repo : String),
      cloneOk repo = true → List.lookup repo cache = none →
      (prepareLoop cloneOk cacheDir repos cache log).2.count repo ≤ log.count repo + 1 ∧
      (repo ∈ repos →
        List.lookup repo (prepareLoop cloneOk cacheDir repos cache log).1 =
          some (clonePath cacheDir repo)) := by
  intro repos
  induction repos with
  | nil =>
    intro cache log repo _ _
    exact ⟨Nat.le_add_right _ 1, fun hmem => absurd hmem (List.not_mem_nil repo)⟩
  | cons r rest ih =>
    intro cache log repo hok h
    by_cases hc : (List.lookup r cache).isSome
    · have hne : r ≠ repo := by
        intro he
        subst he
        rw [h] at hc
        exact Bool.noConfusion hc
      simp only [prepareLoop, if_pos hc]
      rcases ih cache log repo hok h with ⟨h1, h2⟩
      refine ⟨h1, fun hmem => h2 ?_⟩
      rcases List.mem_cons.1 hmem with he | hmem2
      · exact absurd he.symm hne
      · exact hmem2
    · simp only [prepareLoop, if_neg hc]
      by_cases hre : r = repo
      · subst hre
        rw [if_pos hok]
        have hlk : List.lookup r (cache ++ [(r, clonePath cacheDir r)]) =
            some (clonePath cacheDir r) := by
          rw [lookup_append, h]
          simp [List.lookup]
        rcases prepareLoop_cached cloneOk cacheDir rest
            (cache ++ [(r, clonePath cacheDir r)]) (log ++ [r]) r (clonePath cacheDir r) hlk
          with ⟨h1, h2⟩
        refine ⟨?_, fun _ => h1⟩
        rw [h2, List.count_append]
        simp [List.count_singleton']
      · have hbne : (repo == r) = false := beq_false_of_ne (Ne.symm hre)
        have hcount : (log ++ [r]).count repo = log.count repo := by
          rw [List.count_append]
          simp [List.count_singleton', hre]
        have hmemr : repo ∈ r :: rest → repo ∈ rest := by
          intro hmem
          rcases List.mem_cons.1 hmem with he | hmem2
          · exact absurd he.symm hre
          · exact hmem2
        by_cases hokr : cloneOk r = true
        · rw [if_pos hokr]
          have hlk2 : List.lookup repo (cache ++ [(r, clonePath cacheDir r)]) = none := by
            rw [lookup_append, h]
            simp [List.lookup, hbne]
          rcases ih (cache ++ [(r, clonePath cacheDir r)]) (log ++ [r]) repo hok hlk2
            with ⟨h1, h2⟩
          exact ⟨by rw [hcount] at h1; exact h1, fun hmem => h2 (hmemr hmem)⟩
        · rw [if_neg hokr]
          rcases ih cache (log ++ [r]) repo hok h with ⟨h1, h2⟩
          exact ⟨by rw [hcount] at h1; exact h1, fun hmem => h2 (hmemr hmem)⟩

/-- Claim C5, amended.  For a repository whose clone succeeds, cache
population performs at most one clone no matter how many tasks reference it,
and afterwards the cache maps the repository to its fixed location; the claim
as stated fails when the clone *fails*: the failed repository is not
recorded in the cache, so each later task referencing it triggers another
clone attempt. -/
theorem prepare_repo_cache_idempotent (cloneOk : String → Bool) (cacheDir : String)
    (repos : List String) (repo : String) (hok : cloneOk repo = true) :
    (prepareRepoCache cloneOk cacheDir repos).2.count repo ≤ 1 ∧
    (repo ∈ repos →
      List.lookup repo (prepareRepoCache cloneOk cacheDir repos).1 =
        some (clonePath cacheDir repo)) := by
  have h := prepareLoop_once cloneOk cacheDir repos [] [] repo hok rfl
  simpa [prepareRepoCache] using h

/-- Claim C5, witness at a concrete input. -/
theorem prepare_repo_cache_idempotent_witness :
    (prepareRepoCache (fun _ => true) "cache" ["x/y", "x/y"]).2.count "x/y" ≤ 1 ∧
    ("x/y" ∈ ["x/y", "x/y"] →
      List.lookup "x/y" (prepareRepoCache (fun _ => true) "cache" ["x/y", "x/y"]).1 =
        some (clonePath "cache" "x/y")) :=
  prepare_repo_cache_idempotent (fun _ => true) "cache" ["x/y", "x/y"] "x/y" rfl

/-- Claim C5, counterexample to the claim as stated: when cloning `x/y`
fails, two tasks referencing `x/y` trigger two clone attempts, not at most
one. -/
theorem prepare_c5_counterexample :
    (prepareRepoCache (fun _ => false) "cache" ["x/y", "x/y"]).2 = ["x/y", "x/y"] ∧
    ¬ (prepareRepoCache (fun _ => false) "cache" ["x/y", "x/y"]).2.count "x/y" ≤ 1 := by
  refine ⟨rfl, ?_⟩
  decide

/-! ## Lemmas about one extraction attempt -/

lemma lookup_setField (k k2 : String) (v : JVal) :
    ∀ d : PyDict, List.lookup k2 (setField k v d) =
      if k2 = k then some v else List.lookup k2 d := by
  intro d
  induction d with
  | nil =>
    by_cases h : k2 = k
    · subst h
      simp [setField, List.lookup]
    · simp [setField, List.lookup, h, beq_false_of_ne h]
  | cons p t ih =>
    rcases p with ⟨a, b⟩
    by_cases hak : a = k
    · subst hak
      simp only [setField, if_pos rfl]
      by_cases h2 : k2 = a
      · subst h2
        simp [List.lookup]
      · simp [List.lookup, beq_false_of_ne h2, h2]
    · simp only [setField, if_neg hak]
      by_cases h2 : k2 = a
      · subst h2
        have hne : ¬ k2 = k := hak
        simp [List.lookup, hne]
      · simp [List.lookup, beq_false_of_ne h2, ih]

/-- Claim C6: one extraction attempt removes the task's workspace directory
on every exit path.  The environment `env` ranges over all outcomes of the
external steps (missing cache entry, copy failure, checkout failure, describe
failure, unparsable version, success), and the `finally` clause removes the
workspace in each of them; the hypotheses state that the task carries the
three required fields, which `main` validates before scheduling. -/
theorem process_repo_task_cleans (env : TaskEnv) (task : PyDict) (fs : List String)
    (iid : String) (hid : List.lookup "instance_id" task = some (JVal.str iid))
    (hrepo : (List.lookup "repo" task).isSome)
    (hbc : (List.lookup "base_commit" task).isSome) :
    (env.testbed ++ "/" ++ iid) ∉ (processRepoTask env task fs).2 := by
  rcases Option.isSome_iff_exists.1 hrepo with ⟨vr, hvr⟩
  rcases Option.isSome_iff_exists.1 hbc with ⟨vb, hvb⟩
  unfold processRepoTask
  rw [hid, hvr, hvb]
  simp only [rmtree, mkdirs]
  intro hmem
  rcases List.mem_filter.1 hmem with ⟨_, hdec⟩
  simp at hdec

/-- Claim C6, witness at a concrete input. -/
theorem process_repo_task_cleans_witness :
    ("tb" ++ "/" ++ "t1") ∉
      (processRepoTask ⟨"tb", true, true, true, some "v2.3.1-0-gabc"⟩
        [("instance_id", JVal.str "t1"), ("repo", JVal.str "x/y"),
          ("base_commit", JVal.str "abc")] ["tb" ++ "/" ++ "t1"]).2 :=
  process_repo_task_cleans ⟨"tb", true, true, true, some "v2.3.1-0-gabc"⟩
    [("instance_id", JVal.str "t1"), ("repo", JVal.str "x/y"),
      ("base_commit", JVal.str "abc")] ["tb" ++ "/" ++ "t1"] "t1" rfl (by decide) (by decide)

/-- Claim C8: a successful extraction attempt returns the input task with
`version` set to the extracted string and every other field — required or
extra, e.g. `pull_number` — unchanged. -/
theorem process_repo_task_preserves_fields (env : TaskEnv) (task : PyDict)
    (fs : List String) (r : PyDict)
    (h : (processRepoTask env task fs).1 = Except.ok (some r)) :
    (∀ k, k ≠ "version" → List.lookup k r = List.lookup k task) ∧
    ∃ d v, env.describe = some d ∧ extractVersion (pyStrip d) = some v ∧
      List.lookup "version" r = some (JVal.str v) := by
  unfold processRepoTask at h
  cases hid : List.lookup "instance_id" task with
  | none => rw [hid] at h; cases h
  | some vid =>
    cases vid with
    | null => rw [hid] at h; cases h
    | num n => rw [hid] at h; cases h
    | str iid =>
      cases hvr : List.lookup "repo" task with
      | none => rw [hid, hvr] at h; cases h
      | some vr =>
        cases hvb : List.lookup "base_commit" task with
        | none => rw [hid, hvr, hvb] at h; cases h
        | some vb =>
          rw [hid, hvr, hvb] at h
          simp only [Except.ok.injEq] at h
          cases hch : env.cacheHit with
          | false => rw [hch] at h; simp at h
          | true =>
            cases hcp : env.copyOk with
            | false => rw [hch, hcp] at h; simp at h
            | true =>
              cases hco : env.checkoutOk with
              | false => rw [hch, hcp, hco] at h; simp at h
              | true =>
                rw [hch, hcp, hco] at h
                simp only [Bool.not_true, Bool.false_eq_true, if_false] at h
                cases hd : env.describe with
                | none =>
                  rw [hd] at h
                  simp [getVersionByGit] at h
                | some d =>
                  rw [hd] at h
                  cases he : extractVersion (pyStrip d) with
                  | none =>
                    simp [getVersionByGit, he] at h
                  | some v =>
                    simp only [getVersionByGit, he, Bool.not_true, Bool.false_eq_true,
                      if_false, Option.some.injEq] at h
                    subst h
                    refine ⟨?_, d, v, rfl, he, ?_⟩
                    · intro k hk
                      rw [lookup_setField, if_neg hk]
                    · rw [lookup_setField, if_pos rfl]

/-- Claim C8, witness at a concrete input: the extra `pull_number` field of
the task survives extraction unchanged and `version` is set. -/
theorem process_repo_task_preserves_fields_witness :
    List.lookup "pull_number"
        (setField "version" (JVal.str "2.3")
          [("instance_id", JVal.str "t1"), ("repo", JVal.str "x/y"),
            ("base_commit", JVal.str "abc"), ("pull_number", JVal.num 42)]) =
      List.lookup "pull_number"
        [("instance_id", JVal.str "t1"), ("repo", JVal.str "x/y"),
          ("base_commit", JVal.str "abc"), ("pull_number", JVal.num 42)] ∧
    List.lookup "version"
        (setField "version" (JVal.str "2.3")
          [("instance_id", JVal.str "t1"), ("repo", JVal.str "x/y"),
            ("base_commit", JVal.str "abc"), ("pull_number", JVal.num 42)]) =
      some (JVal.str "2.3") := by
  have h := process_repo_task_preserves_fields
    ⟨"tb", true, true, true, some "v2.3.1-0-gabc"⟩
    [("instance_id", JVal.str "t1"), ("repo", JVal.str "x/y"),
      ("base_commit", JVal.str "abc"), ("pull_number", JVal.num 42)] [] _ rfl
  rcases h with ⟨h1, d, v, hd, hv, h2⟩
  have hd2 : d = "v2.3.1-0-gabc" := by
    injection hd with h3
    exact h3.symm
  subst hd2
  have hv2 : v = "2.3" := by
    rw [show extractVersion (pyStrip "v2.3.1-0-gabc") = some "2.3" from rfl] at hv
    injection hv with h4
    exact h4.symm
  subst hv2
  exact ⟨h1 "pull_number" (by decide), h2⟩

/-- Claim C7 (the code violates it): when the input task file is unreadable
or malformed JSON, or a task lacks a required field, `main` prints the error
and returns *normally*, so no cloning happens but the process exit status is
0, not non-zero as the claim requires. -/
theorem main_config_error_exits_zero :
    mainPhase none none = Except.error 0 ∧
    mainPhase (some [[("repo", JVal.str "x/y")]]) none = Except.error 0 := by
  exact ⟨rfl, rfl⟩

end Versioning
